import Mathlib

/-!
Verification of the Java test-code quality metrics analyzer
(`evomaster-config/scripts/code_metrics.py`).

The Python source is shallowly embedded over `List Char` buffers.  Python
`str.split`, `str.strip`, `str.startswith` and the handful of regular
expressions the analyzer uses are modelled by executable Lean functions;
regular expressions are transcribed into an explicit pattern AST and run by
a small backtracking matcher with Python `re` semantics (leftmost match,
left-priority alternation, greedy quantifiers).  Python floats are modelled
by `ℚ` wherever the source only adds, multiplies, divides, compares, takes
`min`/`max` or rounds; `math.log`/`math.log2` (transcendental, and the one
place the source can raise a `ValueError` domain error) are modelled over
`ℝ` with an `Option` capturing the domain check.
-/

/-- Characters matched by Python default whitespace (`str.split`, `str.strip`,
regex `\s`): space, tab, newline, carriage return, vertical tab, form feed. -/
def isPySpace (c : Char) : Bool :=
  c = ' ' || c = '\t' || c = '\n' || c = '\r' || c = '\x0b' || c = '\x0c'

/-- Characters matched by regex `\w` (ASCII range, which covers the analyzed
Java sources): letters, digits and underscore. -/
def isWordChar (c : Char) : Bool :=
  c.isAlpha || c.isDigit || c = '_'

/-- Python `str.strip()`: drop leading and trailing whitespace. -/
def pyStrip (l : List Char) : List Char :=
  ((l.dropWhile isPySpace).reverse.dropWhile isPySpace).reverse

/-- Python `content.split(chr 10)` (split on newline): always returns at least
one element; the empty string splits to one empty line. -/
def splitLines : List Char → List (List Char)
  | [] => [[]]
  | c :: cs =>
    if c = '\n' then [] :: splitLines cs
    else
      match splitLines cs with
      | [] => [[c]]
      | l :: ls => (c :: l) :: ls

/-- Helper for `pySplit`: accumulates the current word (reversed). -/
def pySplitAux : List Char → List Char → List (List Char)
  | [], acc => if acc.isEmpty then [] else [acc.reverse]
  | c :: cs, acc =>
    if isPySpace c then
      if acc.isEmpty then pySplitAux cs [] else acc.reverse :: pySplitAux cs []
    else pySplitAux cs (c :: acc)

/-- Python `content.split()` with no argument: whitespace-separated tokens,
empty tokens discarded. -/
def pySplit (l : List Char) : List (List Char) := pySplitAux l []

/-- Python `round(x, 1)` modelled over `ℚ`: round to the nearest tenth.
Mathlib `round` resolves ties upward while CPython resolves float ties to
even; no statement below depends on tie behaviour. -/
def round1 (q : ℚ) : ℚ := ((round (10 * q) : ℤ) : ℚ) / 10

/-- Python `int(x)`: truncation toward zero. -/
def pyInt (q : ℚ) : ℤ := if 0 ≤ q then ⌊q⌋ else ⌈q⌉

/-! ## Size analyzer (`JavaTestAnalyzer._analyze_size`, source lines 198-211) -/

/-- `JavaTestAnalyzer._is_comment_line`: the stripped line starts with
`//`, `/*`, `*` or `*/`. -/
def is_comment_line (line : List Char) : Bool :=
  let stripped := pyStrip line
  ("//".toList).isPrefixOf stripped ||
  ("/*".toList).isPrefixOf stripped ||
  ("*".toList).isPrefixOf stripped ||
  ("*/".toList).isPrefixOf stripped

/-- A blank line: `not l.strip()` in the source (stripped line is empty). -/
def isBlankLine (line : List Char) : Bool := (pyStrip line).isEmpty

/-- `m.total_lines = len(self.lines)` where `self.lines = content.split(chr 10)`. -/
def total_lines (content : List Char) : ℕ := (splitLines content).length

/-- `m.blank_lines`: number of lines whose stripped text is empty. -/
def blank_lines (content : List Char) : ℕ :=
  (splitLines content).countP isBlankLine

/-- `m.comment_lines`: number of lines classified as comment lines. -/
def comment_lines (content : List Char) : ℕ :=
  (splitLines content).countP is_comment_line

/-- `m.logical_loc = m.total_lines - m.blank_lines - m.comment_lines`
(Python int arithmetic, hence `ℤ`). -/
def logical_loc (content : List Char) : ℤ :=
  (total_lines content : ℤ) - blank_lines content - comment_lines content

/-- `m.comment_ratio = round(comment_lines / total_lines * 100, 1)` when
`total_lines > 0`, else `0`. -/
def comment_ratio (content : List Char) : ℚ :=
  if 0 < total_lines content then
    round1 ((comment_lines content : ℚ) / (total_lines content : ℚ) * 100)
  else 0

/-! ## Block extractor (`JavaTestAnalyzer._extract_block`, source lines 688-702)

The loop scans from the starting brace keeping a depth counter (`+1` on each
opening brace, `-1` on each closing brace) and breaks with `end = i + 1` the
first time the counter reaches `0` at a closing brace.  `blockLen cs d` is
the number of characters consumed when the scan starts on buffer suffix `cs`
with current depth `d`, and `none` when the loop runs off the end of the
buffer without the counter returning to zero (in which case the source
returns `content[start_brace:start_brace]`, the empty slice, because `end`
was never reassigned). -/

/-- Number of characters the `_extract_block` loop consumes before its
`depth == 0` break fires, or `none` if the break never fires. -/
def blockLen : List Char → ℤ → Option ℕ
  | [], _ => none
  | c :: cs, d =>
    if c = '{' then (blockLen cs (d + 1)).map (· + 1)
    else if c = '}' then
      if d - 1 = 0 then some 1
      else (blockLen cs (d - 1)).map (· + 1)
    else (blockLen cs d).map (· + 1)

/-- The slice `_extract_block` returns, phrased on the suffix starting at the
opening brace. -/
def extractBlockL (cs : List Char) : List Char :=
  match blockLen cs 0 with
  | some n => cs.take n
  | none => []

/-- `JavaTestAnalyzer._extract_block(start_brace)`: returns
`content[start_brace:end]` where `end` is the index one past the closing
brace at which the depth counter first returns to `0`, or `start_brace`
itself (empty slice) if it never does. -/
def extract_block (content : List Char) (start_brace : ℕ) : List Char :=
  extractBlockL (content.drop start_brace)

/-- Running brace balance of a prefix: count of opening braces minus count of
closing braces.  The depth counter of `_extract_block` after consuming a
prefix `p` equals `braceBalance p`. -/
def braceBalance (l : List Char) : ℤ :=
  (l.countP (· = '{') : ℤ) - (l.countP (· = '}') : ℤ)

/-! ## Score aggregator (`calculate_quality_score`, source lines 834-865) -/

/-- The sub-metrics `calculate_quality_score` reads from the full metrics
record.  Percentages/averages are `ℚ` (Python floats), counts are `ℕ`.
The field `stx_errors` models the source field `syntax_errors`. -/
structure ScoreInput where
  avg_cyclomatic : ℚ
  code_smell_count : ℕ
  duplicate_percentage : ℚ
  violation_count : ℕ
  long_test_count : ℕ
  aaa_percentage : ℚ
  stx_errors : ℕ
  framework_keyword_violations : ℕ

/-- Complexity deduction: `if avg_cyclomatic > 10: score -= min(20, (avg - 10) * 2)`. -/
def complexityDeduction (m : ScoreInput) : ℚ :=
  if 10 < m.avg_cyclomatic then min 20 ((m.avg_cyclomatic - 10) * 2) else 0

/-- Code-smell deduction: `min(15, code_smell_count * 3)`. -/
def smellDeduction (m : ScoreInput) : ℚ :=
  min 15 ((m.code_smell_count : ℚ) * 3)

/-- Duplication deduction: `min(15, duplicate_percentage)`. -/
def duplicationDeduction (m : ScoreInput) : ℚ :=
  min 15 m.duplicate_percentage

/-- Convention deduction: `min(10, violation_count)`. -/
def conventionDeduction (m : ScoreInput) : ℚ :=
  min 10 (m.violation_count : ℚ)

/-- Long-test deduction: `min(10, long_test_count * 2)`. -/
def longTestDeduction (m : ScoreInput) : ℚ :=
  min 10 ((m.long_test_count : ℚ) * 2)

/-- AAA deduction: flat `10` when `aaa_percentage < 50`. -/
def aaaDeduction (m : ScoreInput) : ℚ :=
  if m.aaa_percentage < 50 then 10 else 0

/-- Syntax-error deduction: `min(10, syntax_errors * 5)`. -/
def stxDeduction (m : ScoreInput) : ℚ :=
  min 10 ((m.stx_errors : ℚ) * 5)

/-- Framework deduction: `min(10, framework_keyword_violations * 2)`. -/
def frameworkDeduction (m : ScoreInput) : ℚ :=
  min 10 ((m.framework_keyword_violations : ℚ) * 2)

/-- `calculate_quality_score`: start from 100, subtract the eight capped
deductions in sequence, truncate to int, clamp to `[0, 100]`. -/
def calculate_quality_score (m : ScoreInput) : ℤ :=
  max 0 (min 100 (pyInt
    (100 - complexityDeduction m - smellDeduction m - duplicationDeduction m
      - conventionDeduction m - longTestDeduction m - aaaDeduction m
      - stxDeduction m - frameworkDeduction m)))

/-- The all-default metrics record: every sub-metric zero. -/
def zeroScoreInput : ScoreInput := ⟨0, 0, 0, 0, 0, 0, 0, 0⟩

/-! ## Regular-expression engine

The analyzer uses `re.findall` / `re.finditer` / `re.search` with a fixed set
of patterns.  Each pattern is transcribed into the `RE` AST below and run by
a backtracking matcher that mirrors Python `re` semantics: alternation
prefers the left branch, `*`/`+`/`?` are greedy, `\b` is a zero-width word
boundary, and a capture group records the span it consumed.  The matcher
carries a fuel argument only to make the recursion structural; `reFuel`
always exceeds the deepest possible backtracking chain for the patterns and
buffers involved. -/

/-- Pattern AST: `cls` is a one-character class, `lit` a literal string,
`alt` a left-priority alternation, `star`/`opt` greedy quantifiers,
`wordB` the zero-width `\b` assertion and `grp` a capturing group. -/
inductive RE : Type
  | eps : RE
  | cls (p : Char → Bool) : RE
  | lit (t : List Char) : RE
  | seq (a b : RE) : RE
  | alt (a b : RE) : RE
  | star (a : RE) : RE
  | opt (a : RE) : RE
  | wordB : RE
  | grp (a : RE) : RE

/-- Node count of a pattern, used to size the matcher fuel. -/
def reSize : RE → ℕ
  | .eps => 1
  | .cls _ => 1
  | .lit _ => 1
  | .seq a b => 1 + reSize a + reSize b
  | .alt a b => 1 + reSize a + reSize b
  | .star a => 1 + reSize a
  | .opt a => 1 + reSize a
  | .wordB => 1
  | .grp a => 1 + reSize a

/-- Word-character test on an optional character (`none` = buffer edge,
which is a non-word position). -/
def optWord : Option Char → Bool
  | none => false
  | some c => isWordChar c

/-- The character preceding the position reached after consuming `n`
characters of `s`, given the character preceding `s` itself. -/
def prevAfter (s : List Char) (prev : Option Char) (n : ℕ) : Option Char :=
  if n = 0 then prev else s.get? (n - 1)

/-- First-defined capture, mirroring that each transcribed pattern contains
at most one group. -/
def orCap (a b : Option (List Char)) : Option (List Char) :=
  match a with
  | some x => some x
  | none => b

/-- All ways `e` can match a prefix of `s`, as (consumed length, capture)
pairs in Python backtracking priority order; the head is the match Python
returns.  `prev` is the character preceding `s` (for `\b`). -/
def reRun : ℕ → RE → List Char → Option Char → List (ℕ × Option (List Char))
  | 0, _, _, _ => []
  | fuel + 1, e, s, prev =>
    match e with
    | .eps => [(0, none)]
    | .cls p =>
      match s with
      | [] => []
      | c :: _ => if p c then [(1, none)] else []
    | .lit t => if t.isPrefixOf s then [(t.length, none)] else []
    | .wordB => if optWord prev ≠ optWord s.head? then [(0, none)] else []
    | .grp a => (reRun fuel a s prev).map (fun r => (r.1, some (s.take r.1)))
    | .alt a b => reRun fuel a s prev ++ reRun fuel b s prev
    | .opt a => reRun fuel a s prev ++ [(0, none)]
    | .seq a b =>
      (reRun fuel a s prev).flatMap (fun r =>
        (reRun fuel b (s.drop r.1) (prevAfter s prev r.1)).map
          (fun r2 => (r.1 + r2.1, orCap r.2 r2.2)))
    | .star a =>
      ((reRun fuel a s prev).flatMap (fun r =>
        if r.1 = 0 then []
        else
          (reRun fuel (.star a) (s.drop r.1) (prevAfter s prev r.1)).map
            (fun r2 => (r.1 + r2.1, orCap r.2 r2.2)))) ++ [(0, none)]

/-- Fuel ample for every backtracking chain of `e` over `s`. -/
def reFuel (e : RE) (s : List Char) : ℕ := (reSize e + 2) * (s.length + 2)

/-- One scan step of `re.findall`/`re.finditer`: at each position try the
pattern; on a match record (capture, matched text, remaining suffix) and
resume after the match, otherwise advance one character.  The fuel is the
number of scan positions, `s.length + 1`. -/
def findAllAux : ℕ → RE → List Char → Option Char →
    List (Option (List Char) × List Char × List Char)
  | 0, _, _, _ => []
  | fuel + 1, e, s, prev =>
    match (reRun (reFuel e s) e s prev).head? with
    | some (n, cap) =>
      if n = 0 then
        match s with
        | [] => [(cap, [], [])]
        | c :: rest => (cap, [], s) :: findAllAux fuel e rest (some c)
      else (cap, s.take n, s.drop n) :: findAllAux fuel e (s.drop n) (prevAfter s prev n)
    | none =>
      match s with
      | [] => []
      | c :: rest => findAllAux fuel e rest (some c)

/-- All non-overlapping matches of `e` in `s`, leftmost-first
(`re.finditer`): (capture, matched text, suffix after the match). -/
def findAll (e : RE) (s : List Char) :
    List (Option (List Char) × List Char × List Char) :=
  findAllAux (s.length + 1) e s none

/-- `len(re.findall(e, s))`. -/
def countMatches (e : RE) (s : List Char) : ℕ := (findAll e s).length

/-- `re.findall(e, s)` for a pattern with one capture group: the captured
texts. -/
def reCaptures (e : RE) (s : List Char) : List (List Char) :=
  (findAll e s).filterMap (fun r => r.1)

/-- `re.search(e, s) is not None`. -/
def reSearch (e : RE) (s : List Char) : Bool := !(findAll e s).isEmpty

/-- Regex `\s`. -/
def wsRE : RE := .cls isPySpace

/-- Regex `\w`. -/
def wRE : RE := .cls isWordChar

/-- Greedy `+` as `a a*`. -/
def plusRE (a : RE) : RE := .seq a (.star a)

/-- Literal pattern from a string. -/
def litS (s : String) : RE := .lit s.toList

/-! ## Pattern transcriptions

Each definition transcribes one regex literal of the source into the `RE`
AST; the original pattern is quoted in the doc comment. -/

/-- Pattern `\bif\b` (decision point, `_calc_cyclomatic`). -/
def pIf : RE := .seq .wordB (.seq (litS "if") .wordB)

/-- Pattern `\belse\s+if\b`. -/
def pElseIf : RE :=
  .seq .wordB (.seq (litS "else") (.seq (plusRE wsRE) (.seq (litS "if") .wordB)))

/-- Pattern `\bfor\b`. -/
def pFor : RE := .seq .wordB (.seq (litS "for") .wordB)

/-- Pattern `\bwhile\b`. -/
def pWhile : RE := .seq .wordB (.seq (litS "while") .wordB)

/-- Pattern `\bcase\b`. -/
def pCase : RE := .seq .wordB (.seq (litS "case") .wordB)

/-- Pattern `\bcatch\b`. -/
def pCatch : RE := .seq .wordB (.seq (litS "catch") .wordB)

/-- Pattern `\b\?\s*:` (ternary operator). -/
def pTernary : RE := .seq .wordB (.seq (litS "?") (.seq (.star wsRE) (litS ":")))

/-- Pattern `\b&&\b`. -/
def pAmpAmp : RE := .seq .wordB (.seq (litS "&&") .wordB)

/-- Pattern `\b\|\|\b`. -/
def pBarBar : RE := .seq .wordB (.seq (litS "||") .wordB)

/-- The decision-point pattern list of `_calc_cyclomatic`, in source order. -/
def cyclomaticPatterns : List RE :=
  [pIf, pElseIf, pFor, pWhile, pCase, pCatch, pTernary, pAmpAmp, pBarBar]

/-- `JavaTestAnalyzer._calc_cyclomatic`: `1 +` the match count of each
decision-point pattern over the method body. -/
def calc_cyclomatic (code : List Char) : ℕ :=
  1 + (cyclomaticPatterns.map (fun p => countMatches p code)).sum

/-- Character class `[\w<>,\s]` of the private-field pattern. -/
def fieldClsChar (c : Char) : Bool :=
  isWordChar c || c = '<' || c = '>' || c = ',' || isPySpace c

/-- Character class `[\w<>,\[\]\s]` of the method-signature pattern. -/
def sigClsChar (c : Char) : Bool :=
  isWordChar c || c = '<' || c = '>' || c = ',' || c = '[' || c = ']' || isPySpace c

/-- Character class `[\w,\s]` of the throws clause. -/
def throwsClsChar (c : Char) : Bool :=
  isWordChar c || c = ',' || isPySpace c

/-- Pattern `private\s+\w+\s+(\w+)\s*\(` (unused-private-method scan of
`_detect_dead_code`). -/
def pPrivateMethod : RE :=
  .seq (litS "private") (.seq (plusRE wsRE) (.seq (plusRE wRE)
    (.seq (plusRE wsRE) (.seq (.grp (plusRE wRE)) (.seq (.star wsRE) (litS "("))))))

/-- Pattern `\b{method}\s*\(` with an interpolated method name. -/
def pCallOf (name : List Char) : RE :=
  .seq .wordB (.seq (.lit name) (.seq (.star wsRE) (litS "(")))

/-- Pattern `private\s+(?:final\s+)?[\w<>,\s]+\s+(\w+)\s*[;=]`
(unused-private-field scan of `_detect_dead_code`). -/
def pPrivateField : RE :=
  .seq (litS "private") (.seq (plusRE wsRE)
    (.seq (.opt (.seq (litS "final") (plusRE wsRE)))
      (.seq (plusRE (.cls fieldClsChar)) (.seq (plusRE wsRE)
        (.seq (.grp (plusRE wRE))
          (.seq (.star wsRE) (.cls (fun c => c = ';' || c = '='))))))))

/-- Pattern `\b{field}\b` with an interpolated field name. -/
def pWordOf (name : List Char) : RE :=
  .seq .wordB (.seq (.lit name) .wordB)

/-- Sub-pattern `@\w+(?:\([^)]*\))?\s*` (one annotation before a method
signature). -/
def annotRE : RE :=
  .seq (litS "@") (.seq (plusRE wRE)
    (.seq (.opt (.seq (litS "(") (.seq (.star (.cls (fun c => c ≠ ')'))) (litS ")"))))
      (.star wsRE)))

/-- Sub-pattern `(?:public|private|protected)?`. -/
def modifierRE : RE :=
  .opt (.alt (litS "public") (.alt (litS "private") (litS "protected")))

/-- Sub-pattern `(?:throws\s+[\w,\s]+)?`. -/
def throwsRE : RE :=
  .opt (.seq (litS "throws") (.seq (plusRE wsRE) (plusRE (.cls throwsClsChar))))

/-- Sequencing of a pattern list (the trailing `eps` is a neutral element). -/
def seqL (l : List RE) : RE := l.foldr .seq .eps

/-- Sub-pattern `\([^)]*\)` (a parenthesized argument list). -/
def parenArgsRE : RE :=
  seqL [litS "(", .star (.cls (fun c => c ≠ ')')), litS ")"]

/-- Method-signature pattern of `_extract_methods`:
`(?:@\w+(?:\([^)]*\))?\s*)*(?:public|private|protected)?\s*(?:static\s+)?(?:final\s+)?[\w<>,\[\]\s]+\s+(\w+)\s*\([^)]*\)\s*(?:throws\s+[\w,\s]+)?\s*\{`. -/
def pMethodSig : RE :=
  seqL [.star annotRE, modifierRE, .star wsRE,
    .opt (.seq (litS "static") (plusRE wsRE)),
    .opt (.seq (litS "final") (plusRE wsRE)),
    plusRE (.cls sigClsChar), plusRE wsRE,
    .grp (plusRE wRE), .star wsRE,
    parenArgsRE, .star wsRE, throwsRE, .star wsRE, litS "\x7b"]

/-- Test-method pattern of `_extract_test_methods`:
`@Test\s*(?:\([^)]*\))?\s*(?:@\w+(?:\([^)]*\))?\s*)*(?:public|private|protected)?\s*(?:void\s+)?(\w+)\s*\([^)]*\)\s*(?:throws\s+[\w,\s]+)?\s*\{`. -/
def pTestMethodSig : RE :=
  seqL [litS "@Test", .star wsRE, .opt parenArgsRE, .star wsRE,
    .star annotRE, modifierRE, .star wsRE,
    .opt (.seq (litS "void") (plusRE wsRE)),
    .grp (plusRE wRE), .star wsRE,
    parenArgsRE, .star wsRE, throwsRE, .star wsRE, litS "\x7b"]

/-! ## Method extraction (`_extract_methods` / `_extract_test_methods`,
source lines 662-686) -/

/-- One `finditer` hit of a signature pattern, turned into (name, body): the
match ends one past the opening brace, so the body is the block extracted
from the suffix starting at that brace. -/
def extract_methods (content : List Char) : List (List Char × List Char) :=
  (findAll pMethodSig content).map
    (fun r => (r.1.getD [], extractBlockL ('{' :: r.2.2)))

/-- `_extract_test_methods`, same shape restricted to `@Test` signatures. -/
def extract_test_methods (content : List Char) : List (List Char × List Char) :=
  (findAll pTestMethodSig content).map
    (fun r => (r.1.getD [], extractBlockL ('{' :: r.2.2)))

/-- Python dict built by successive `d[name] = body` assignments: keys in
first-insertion order, later assignments overwrite the value. -/
def pyDict (l : List (List Char × List Char)) : List (List Char × List Char) :=
  (l.map Prod.fst).dedup.map
    (fun k => (k, ((l.reverse.find? (fun p => p.1 = k)).map Prod.snd).getD []))

/-- `self.methods`. -/
def methods (content : List Char) : List (List Char × List Char) :=
  pyDict (extract_methods content)

/-- `self.test_methods`. -/
def test_methods (content : List Char) : List (List Char × List Char) :=
  pyDict (extract_test_methods content)

/-! ## Duplication analyzer (`_analyze_duplication`, source lines 340-363) -/

/-- The meaningful-line filter: stripped length greater than 15, not a
comment line, not an `import`/`package` declaration, and not one of the
structural noise strings.  Returns the stripped text kept for counting. -/
def meaningful_lines (content : List Char) : List (List Char) :=
  (splitLines content).filterMap (fun line =>
    let stripped := pyStrip line
    if 15 < stripped.length && !is_comment_line line &&
       !(("import".toList).isPrefixOf stripped) &&
       !(("package".toList).isPrefixOf stripped) &&
       !(stripped = "\x7b".toList) && !(stripped = "\x7d".toList) &&
       !(stripped = ")\x7d;".toList) && !(stripped = ([] : List Char)) then
      some stripped
    else none)

/-- `m.duplicate_lines = sum(count - 1 for count in duplicates.values())`
where `duplicates` keeps the distinct meaningful texts with count above 1. -/
def duplicate_lines (content : List Char) : ℕ :=
  let ml := meaningful_lines content
  ((ml.dedup.filter (fun t => 1 < ml.count t)).map (fun t => ml.count t - 1)).sum

/-- `m.duplicate_segments = len(duplicates)`. -/
def duplicate_segments (content : List Char) : ℕ :=
  let ml := meaningful_lines content
  (ml.dedup.filter (fun t => 1 < ml.count t)).length

/-- `m.duplicate_percentage = round(duplicate_lines / max(len(meaningful_lines), 1) * 100, 1)`. -/
def duplicate_percentage (content : List Char) : ℚ :=
  round1 ((duplicate_lines content : ℚ)
    / ((max (meaningful_lines content).length 1 : ℕ) : ℚ) * 100)

/-! ## Dead-code detection (`_detect_dead_code`, source lines 412-431) -/

/-- `_detect_dead_code`: private methods whose name-call pattern occurs at
most once, then private fields whose word pattern occurs at most once. -/
def detect_dead_code (content : List Char) : List (List Char) :=
  let deadMethods :=
    ((reCaptures pPrivateMethod content).filter
      (fun nm => countMatches (pCallOf nm) content ≤ 1)).map
        (fun nm => ("Unused method: ".toList) ++ nm)
  let deadFields :=
    ((reCaptures pPrivateField content).filter
      (fun nm => countMatches (pWordOf nm) content ≤ 1)).map
        (fun nm => ("Unused field: ".toList) ++ nm)
  deadMethods ++ deadFields

/-- `m.dead_code_percentage = round(len(dead_items) / max(len(self.methods), 1) * 100, 1)`
(from `_analyze_code_smells`, source lines 404-407). -/
def dead_code_percentage (content : List Char) : ℚ :=
  round1 (((detect_dead_code content).length : ℚ)
    / ((max (methods content).length 1 : ℕ) : ℚ) * 100)

/-! ## Test analyzer (`_analyze_tests` / `_count_aaa_organized`,
source lines 276-335) -/

/-- Case-insensitive literal (regex compiled with `re.I`). -/
def litCI (s : String) : RE :=
  seqL (s.toList.map (fun c => .cls (fun x => x.toLower = c.toLower)))

/-- Left-priority alternation of a pattern list (the trailing never-matching
branch is a neutral element). -/
def altL (l : List RE) : RE := l.foldr .alt (.cls (fun _ => false))

/-- Pattern `//\s*(arrange|act|assert|given|when|then)` with `re.I`. -/
def pAAAComment : RE :=
  seqL [litS "//", .star wsRE,
    altL [litCI "arrange", litCI "act", litCI "assert",
      litCI "given", litCI "when", litCI "then"]]

/-- Pattern `(=\s*new\s+|@Autowired|mock\()` (arrange evidence). -/
def pArrange : RE :=
  altL [seqL [litS "=", .star wsRE, litS "new", plusRE wsRE],
    litS "@Autowired", litS "mock("]

/-- Pattern `\.(perform|execute|call|invoke|get|post|put)` (act evidence). -/
def pAct : RE :=
  .seq (litS ".") (altL [litS "perform", litS "execute", litS "call",
    litS "invoke", litS "get", litS "post", litS "put"])

/-- Pattern `(assert|verify|andExpect)` (assert evidence). -/
def pAssertEvidence : RE := altL [litS "assert", litS "verify", litS "andExpect"]

/-- Pattern `throws\s+\w+|try\s*\{|assertThrows` (exception handling in a
test body). -/
def pExcHandling : RE :=
  altL [seqL [litS "throws", plusRE wsRE, plusRE wRE],
    seqL [litS "try", .star wsRE, litS "\x7b"],
    litS "assertThrows"]

/-- One test body is AAA/GWT organized: an explicit phase comment, or all
three structural signals present (`_count_aaa_organized`). -/
def hasAAAOrganized (body : List Char) : Bool :=
  reSearch pAAAComment body ||
  (reSearch pArrange body && reSearch pAct body && reSearch pAssertEvidence body)

/-- `m.aaa_organized_count`: test methods whose body is AAA organized.  The
argument is the `self.test_methods` dict (name, body list). -/
def aaa_organized_count (testMethods : List (List Char × List Char)) : ℕ :=
  testMethods.countP (fun p => hasAAAOrganized p.2)

/-- `m.aaa_percentage = round(aaa_organized_count / max(test_method_count, 1) * 100, 1)`. -/
def aaa_percentage (testMethods : List (List Char × List Char)) : ℚ :=
  round1 ((aaa_organized_count testMethods : ℚ)
    / ((max testMethods.length 1 : ℕ) : ℚ) * 100)

/-- `m.tests_with_exception_handling`: test methods whose body matches the
exception-handling pattern. -/
def tests_with_exception_handling (testMethods : List (List Char × List Char)) : ℕ :=
  testMethods.countP (fun p => reSearch pExcHandling p.2)

/-- `m.exception_handling_percentage = round(tests_with_exception_handling / max(test_method_count, 1) * 100, 1)`. -/
def exception_handling_percentage (testMethods : List (List Char × List Char)) : ℚ :=
  round1 ((tests_with_exception_handling testMethods : ℚ)
    / ((max testMethods.length 1 : ℕ) : ℚ) * 100)

/-! ## Complexity analyzer (`_analyze_complexity`, source lines 216-240) -/

/-- `m.avg_cyclomatic`: rounded mean of the per-method cyclomatic values,
`0.0` when no method was extracted. -/
def avg_cyclomatic (content : List Char) : ℚ :=
  let vals := (methods content).map (fun p => (calc_cyclomatic p.2 : ℚ))
  if vals.length = 0 then 0 else round1 (vals.sum / (vals.length : ℚ))

/-- `len(set(self.content.split()))`: number of distinct whitespace-separated
tokens. -/
def distinct_token_count (content : List Char) : ℕ :=
  (pySplit content).dedup.length

/-- Python `math.log`: defined only on positive arguments, a `ValueError`
(`math domain error`) otherwise, modelled by `none`. -/
noncomputable def mathLog (x : ℝ) : Option ℝ :=
  if 0 < x then some (Real.log x) else none

/-- The maintainability-index computation of `_analyze_complexity`:
`loc = max(logical_loc, 1)`, `avg_cc = max(avg_cyclomatic, 1)`,
`halstead_volume = loc * log2(max(distinct_token_count, 1))`,
`mi = 171 - 5.2 * ln(halstead_volume) - 0.23 * avg_cc - 16.2 * ln(loc)`.
`none` models the uncaught `ValueError` raised when a logarithm argument is
not positive. -/
noncomputable def maintainability_index (content : List Char) : Option ℝ :=
  let loc : ℤ := max (logical_loc content) 1
  let avgCc : ℚ := max (avg_cyclomatic content) 1
  let halsteadVolume : ℝ :=
    (loc : ℝ) * Real.logb 2 ((max (distinct_token_count content) 1 : ℕ) : ℝ)
  (mathLog halsteadVolume).bind (fun logV =>
    (mathLog (loc : ℝ)).map (fun logLoc =>
      171 - 5.2 * logV - 0.23 * (avgCc : ℝ) - 16.2 * logLoc))

/-- The reported `m.maintainability_index`:
`round(max(0, min(100, mi * 100 / 171)), 1)` when the computation does not
raise. -/
noncomputable def maintainability_index_reported (content : List Char) : Option ℝ :=
  (maintainability_index content).map (fun mi =>
    ((round (10 * max 0 (min 100 (mi * 100 / 171)) : ℝ) : ℤ) : ℝ) / 10)

/-! ## Helper lemmas -/

/-- Rounding to one decimal preserves nonnegativity. -/
lemma round1_nonneg {q : ℚ} (h : 0 ≤ q) : 0 ≤ round1 q := by
  unfold round1
  have h2 : (0 : ℤ) ≤ round (10 * q) := by
    rw [round_eq]
    exact Int.le_floor.2 (by push_cast; linarith)
  positivity

/-- Rounding to one decimal preserves the bound 100. -/
lemma round1_le_100 {q : ℚ} (h : q ≤ 100) : round1 q ≤ 100 := by
  unfold round1
  have h2 : round (10 * q) ≤ round (1000 : ℚ) := by
    rw [round_eq, round_eq]
    exact Int.floor_le_floor (by linarith)
  have h3 : round ((1000 : ℤ) : ℚ) = 1000 := round_intCast 1000
  rw [show ((1000 : ℤ) : ℚ) = (1000 : ℚ) by norm_cast] at h3
  rw [h3] at h2
  rw [div_le_iff₀ (by norm_num : (0:ℚ) < 10)]
  calc ((round (10 * q) : ℤ) : ℚ) ≤ ((1000 : ℤ) : ℚ) := by exact_mod_cast h2
    _ = 100 * 10 := by norm_num

/-- A count below the (guarded) denominator gives a percentage in `[0, 100]`. -/
lemma pct_bounds {c n : ℕ} (h : c ≤ n) :
    0 ≤ (c : ℚ) / ((max n 1 : ℕ) : ℚ) * 100 ∧
    (c : ℚ) / ((max n 1 : ℕ) : ℚ) * 100 ≤ 100 := by
  have hd : (0 : ℚ) < ((max n 1 : ℕ) : ℚ) := by
    have : 1 ≤ max n 1 := le_max_right n 1
    exact_mod_cast Nat.lt_of_lt_of_le Nat.zero_lt_one this
  constructor
  · positivity
  · have hcn : (c : ℚ) ≤ ((max n 1 : ℕ) : ℚ) := by
      exact_mod_cast le_trans h (le_max_left n 1)
    have h1 : (c : ℚ) / ((max n 1 : ℕ) : ℚ) ≤ 1 := (div_le_one hd).2 hcn
    nlinarith

/-- Splitting on newlines always yields at least one line. -/
lemma splitLines_length_pos (content : List Char) : 0 < (splitLines content).length := by
  induction content with
  | nil => simp [splitLines]
  | cons c cs ih =>
    by_cases h : c = '\n'
    · simp [splitLines, h]
    · simp only [splitLines, h, if_false]
      cases hs : splitLines cs with
      | nil => simp
      | cons l ls => simp

/-- Counting a partition: two disjoint predicates plus the rest cover the list. -/
lemma countP_partition {α : Type} (p q : α → Bool) (l : List α)
    (h : ∀ x ∈ l, ¬(p x = true ∧ q x = true)) :
    l.countP p + l.countP q + l.countP (fun x => !p x && !q x) = l.length := by
  induction l with
  | nil => simp
  | cons a l ih =>
    have ha := h a (List.mem_cons_self a l)
    have ih' := ih (fun x hx => h x (List.mem_cons_of_mem a hx))
    by_cases hp : p a <;> by_cases hq : q a <;>
      simp [List.countP_cons, hp, hq] at ha ⊢ <;> omega

/-- A blank line is never classified as a comment line. -/
lemma blank_not_comment {l : List Char} (h : isBlankLine l = true) :
    is_comment_line l = false := by
  unfold isBlankLine at h
  unfold is_comment_line
  rw [List.isEmpty_iff] at h
  rw [h]
  decide

/-! ## Claim theorems -/

/-- Claim C6: the size analyzer classifies every line into exactly one of
blank / comment / logical, so blank_lines + comment_lines + logical_loc
equals total_lines, and logical_loc (computed by subtraction in the source)
is the count of logical lines and hence non-negative. -/
theorem c6_size_partition (content : List Char) :
    blank_lines content + comment_lines content
        + (splitLines content).countP (fun l => !isBlankLine l && !is_comment_line l)
      = total_lines content ∧
    logical_loc content
      = ((splitLines content).countP (fun l => !isBlankLine l && !is_comment_line l) : ℤ) ∧
    0 ≤ logical_loc content ∧
    ∀ l : List Char, isBlankLine l = true → is_comment_line l = false := by
  have hdisj : ∀ x ∈ splitLines content,
      ¬(isBlankLine x = true ∧ is_comment_line x = true) := by
    intro x _ ⟨hb, hc⟩
    rw [blank_not_comment hb] at hc
    exact Bool.false_ne_true hc
  have hpart := countP_partition isBlankLine is_comment_line (splitLines content) hdisj
  refine ⟨hpart, ?_, ?_, fun l hb => blank_not_comment hb⟩
  · unfold logical_loc total_lines blank_lines comment_lines
    omega
  · unfold logical_loc total_lines blank_lines comment_lines
    omega

/-- Witness for C6 at a concrete line: the empty line is blank, hence not a
comment line. -/
theorem c6_size_partition_witness : is_comment_line [] = false :=
  (c6_size_partition []).2.2.2 [] (by decide)

/-- Claim C10: every buffer, including the empty one, splits into at least
one line, so total_lines is at least 1 and comment_ratio is always computed
by the division branch of the guard (the total_lines = 0 branch is
unreachable). -/
theorem c10_total_lines_pos (content : List Char) :
    1 ≤ total_lines content ∧
    comment_ratio content
      = round1 ((comment_lines content : ℚ) / (total_lines content : ℚ) * 100) := by
  have h := splitLines_length_pos content
  refine ⟨h, ?_⟩
  unfold comment_ratio total_lines
  rw [if_pos h]

/-- Truncation toward zero is monotone. -/
lemma pyInt_mono {a b : ℚ} (h : a ≤ b) : pyInt a ≤ pyInt b := by
  unfold pyInt
  by_cases ha : 0 ≤ a <;> by_cases hb : 0 ≤ b
  · simp [ha, hb]; exact Int.floor_le_floor h
  · linarith
  · simp [ha, hb]
    calc ⌈a⌉ ≤ ⌈(0 : ℚ)⌉ := Int.ceil_le_ceil (le_of_not_le ha)
      _ = 0 := by norm_num
      _ ≤ ⌊b⌋ := Int.le_floor.2 (by exact_mod_cast hb)
  · simp [ha, hb]; exact Int.ceil_le_ceil h

/-- Claim C7: the score is weakly decreasing in the code-smell count (one
extra smell, all else equal, never raises the score), and every category
deduction of `calculate_quality_score` is bounded by its cap (complexity 20,
smells 15, duplication 15, conventions 10, long tests 10, AAA 10, syntax 10,
framework 10) no matter how large the underlying metric is. -/
theorem c7_score_monotone_caps (m m2 : ScoreInput)
    (h : m2 = { m with code_smell_count := m.code_smell_count + 1 }) :
    calculate_quality_score m2 ≤ calculate_quality_score m ∧
    complexityDeduction m ≤ 20 ∧ smellDeduction m ≤ 15 ∧
    duplicationDeduction m ≤ 15 ∧ conventionDeduction m ≤ 10 ∧
    longTestDeduction m ≤ 10 ∧ aaaDeduction m ≤ 10 ∧
    stxDeduction m ≤ 10 ∧ frameworkDeduction m ≤ 10 := by
  subst h
  refine ⟨?_, ?_, min_le_left _ _, min_le_left _ _, min_le_left _ _,
    min_le_left _ _, ?_, min_le_left _ _, min_le_left _ _⟩
  · have hsmell : smellDeduction m ≤ smellDeduction
        { m with code_smell_count := m.code_smell_count + 1 } := by
      unfold smellDeduction
      exact min_le_min le_rfl (by push_cast; linarith)
    have hrest :
        complexityDeduction { m with code_smell_count := m.code_smell_count + 1 }
            = complexityDeduction m ∧
        duplicationDeduction { m with code_smell_count := m.code_smell_count + 1 }
            = duplicationDeduction m ∧
        conventionDeduction { m with code_smell_count := m.code_smell_count + 1 }
            = conventionDeduction m ∧
        longTestDeduction { m with code_smell_count := m.code_smell_count + 1 }
            = longTestDeduction m ∧
        aaaDeduction { m with code_smell_count := m.code_smell_count + 1 }
            = aaaDeduction m ∧
        stxDeduction { m with code_smell_count := m.code_smell_count + 1 }
            = stxDeduction m ∧
        frameworkDeduction { m with code_smell_count := m.code_smell_count + 1 }
            = frameworkDeduction m := by
      unfold complexityDeduction duplicationDeduction conventionDeduction
        longTestDeduction aaaDeduction stxDeduction frameworkDeduction
      exact ⟨rfl, rfl, rfl, rfl, rfl, rfl, rfl⟩
    obtain ⟨h1, h2, h3, h4, h5, h6, h7⟩ := hrest
    unfold calculate_quality_score
    rw [h1, h2, h3, h4, h5, h6, h7]
    have := pyInt_mono (a :=
      100 - complexityDeduction m
        - smellDeduction { m with code_smell_count := m.code_smell_count + 1 }
        - duplicationDeduction m - conventionDeduction m - longTestDeduction m
        - aaaDeduction m - stxDeduction m - frameworkDeduction m)
      (b := 100 - complexityDeduction m - smellDeduction m - duplicationDeduction m
        - conventionDeduction m - longTestDeduction m - aaaDeduction m
        - stxDeduction m - frameworkDeduction m) (by linarith)
    exact max_le_max le_rfl (min_le_min le_rfl this)
  · unfold complexityDeduction
    by_cases hc : 10 < m.avg_cyclomatic
    · rw [if_pos hc]; exact min_le_left _ _
    · rw [if_neg hc]; norm_num
  · unfold aaaDeduction
    by_cases hc : m.aaa_percentage < 50
    · rw [if_pos hc]
    · rw [if_neg hc]; norm_num

/-- Witness for C7: one extra smell on the all-zero record (score 90 against
90 here, since the smell deduction is still under its cap). -/
theorem c7_score_monotone_caps_witness :
    calculate_quality_score ⟨0, 1, 0, 0, 0, 0, 0, 0⟩
        ≤ calculate_quality_score zeroScoreInput ∧
    complexityDeduction zeroScoreInput ≤ 20 ∧ smellDeduction zeroScoreInput ≤ 15 ∧
    duplicationDeduction zeroScoreInput ≤ 15 ∧ conventionDeduction zeroScoreInput ≤ 10 ∧
    longTestDeduction zeroScoreInput ≤ 10 ∧ aaaDeduction zeroScoreInput ≤ 10 ∧
    stxDeduction zeroScoreInput ≤ 10 ∧ frameworkDeduction zeroScoreInput ≤ 10 :=
  c7_score_monotone_caps zeroScoreInput ⟨0, 1, 0, 0, 0, 0, 0, 0⟩ rfl

/-- Claim C4, counterexample: on the all-default metrics record the quality
score is 90, not 100, because the zero aaa_percentage triggers the flat
low-AAA penalty. -/
theorem c4_counterexample :
    calculate_quality_score zeroScoreInput = 90 ∧
    calculate_quality_score zeroScoreInput ≠ 100 := by
  constructor <;>
    norm_num [calculate_quality_score, complexityDeduction, smellDeduction,
      duplicationDeduction, conventionDeduction, longTestDeduction, aaaDeduction,
      stxDeduction, frameworkDeduction, zeroScoreInput, pyInt, min_def, max_def]

/-- Claim C4 as amended: on the all-zero record every category deduction is
zero except the AAA category, whose flat 10-point penalty fires because the
default aaa_percentage 0 is below 50; the resulting score is exactly 90, and
the computation is a total function. -/
theorem c4_amended :
    calculate_quality_score zeroScoreInput = 90 ∧
    complexityDeduction zeroScoreInput = 0 ∧ smellDeduction zeroScoreInput = 0 ∧
    duplicationDeduction zeroScoreInput = 0 ∧ conventionDeduction zeroScoreInput = 0 ∧
    longTestDeduction zeroScoreInput = 0 ∧ aaaDeduction zeroScoreInput = 10 ∧
    stxDeduction zeroScoreInput = 0 ∧ frameworkDeduction zeroScoreInput = 0 := by
  refine ⟨?_, ?_, ?_, ?_, ?_, ?_, ?_, ?_, ?_⟩ <;>
    norm_num [calculate_quality_score, complexityDeduction, smellDeduction,
      duplicationDeduction, conventionDeduction, longTestDeduction, aaaDeduction,
      stxDeduction, frameworkDeduction, zeroScoreInput, pyInt, min_def, max_def]

/-- Balance of a cons headed by an opening brace. -/
lemma braceBalance_cons_open (l : List Char) :
    braceBalance ('{' :: l) = 1 + braceBalance l := by
  unfold braceBalance
  simp [List.countP_cons]
  ring

/-- Balance of a cons headed by a closing brace. -/
lemma braceBalance_cons_close (l : List Char) :
    braceBalance ('}' :: l) = braceBalance l - 1 := by
  unfold braceBalance
  simp [List.countP_cons]
  ring

/-- Balance of a cons headed by a non-brace character. -/
lemma braceBalance_cons_other {c : Char} (h1 : c ≠ '{') (h2 : c ≠ '}')
    (l : List Char) : braceBalance (c :: l) = braceBalance l := by
  unfold braceBalance
  simp [List.countP_cons, h1, h2]

/-- If the running depth stays at least 1 strictly before position `m` and
returns to 0 exactly at `m`, the extractor loop breaks there. -/
lemma blockLen_some_of_balanced :
    ∀ (cs : List Char) (d : ℤ) (m : ℕ), 1 ≤ d → m ≤ cs.length →
    (∀ k, k < m → 1 ≤ d + braceBalance (cs.take k)) →
    d + braceBalance (cs.take m) = 0 →
    blockLen cs d = some m := by
  intro cs
  induction cs with
  | nil =>
    intro d m hd hm hmid hend
    simp only [List.length_nil, Nat.le_zero] at hm
    subst hm
    simp only [List.take_nil] at hend
    unfold braceBalance at hend
    simp at hend
    omega
  | cons c cs ih =>
    intro d m hd hm hmid hend
    rcases Nat.eq_zero_or_pos m with hm0 | hmpos
    · subst hm0
      simp only [List.take_zero] at hend
      unfold braceBalance at hend
      simp at hend
      omega
    obtain ⟨mm, rfl⟩ : ∃ mm, m = mm + 1 := ⟨m - 1, by omega⟩
    simp only [List.length_cons, Nat.add_le_add_iff_right] at hm
    rw [List.take_succ_cons] at hend
    by_cases hc : c = '{'
    · subst hc
      rw [braceBalance_cons_open] at hend
      show (if ('{' : Char) = '{' then (blockLen cs (d + 1)).map (· + 1) else _) = _
      rw [if_pos rfl]
      rw [ih (d + 1) mm (by omega) hm
        (fun k hk => by
          have := hmid (k + 1) (by omega)
          rw [List.take_succ_cons, braceBalance_cons_open] at this
          linarith)
        (by linarith)]
      rfl
    · by_cases hc2 : c = '}'
      · subst hc2
        rw [braceBalance_cons_close] at hend
        show (if ('}' : Char) = '{' then _ else if ('}' : Char) = '}' then
            (if d - 1 = 0 then some 1 else (blockLen cs (d - 1)).map (· + 1))
          else _) = _
        rw [if_neg (by decide), if_pos rfl]
        rcases Nat.eq_zero_or_pos mm with hmm0 | hmmpos
        · subst hmm0
          simp only [List.take_zero] at hend
          unfold braceBalance at hend
          simp at hend
          rw [if_pos (by omega)]
        · have h1 := hmid 1 (by omega)
          rw [List.take_succ_cons, List.take_zero, braceBalance_cons_close] at h1
          unfold braceBalance at h1
          simp at h1
          rw [if_neg (by omega)]
          rw [ih (d - 1) mm (by omega) hm
            (fun k hk => by
              have := hmid (k + 1) (by omega)
              rw [List.take_succ_cons, braceBalance_cons_close] at this
              linarith)
            (by linarith)]
          rfl
      · rw [braceBalance_cons_other hc hc2] at hend
        show (if c = '{' then _ else if c = '}' then _
          else (blockLen cs d).map (· + 1)) = _
        rw [if_neg hc, if_neg hc2]
        rw [ih d mm hd hm
          (fun k hk => by
            have := hmid (k + 1) (by omega)
            rw [List.take_succ_cons, braceBalance_cons_other hc hc2] at this
            linarith)
          (by linarith)]
        rfl

/-- If the running depth never returns to 0 anywhere in the buffer, the
extractor loop never breaks. -/
lemma blockLen_none_of_unbalanced :
    ∀ (cs : List Char) (d : ℤ),
    (∀ k, 1 ≤ k → k ≤ cs.length → d + braceBalance (cs.take k) ≠ 0) →
    blockLen cs d = none := by
  intro cs
  induction cs with
  | nil => intro d _; rfl
  | cons c cs ih =>
    intro d h
    by_cases hc : c = '{'
    · subst hc
      show (if ('{' : Char) = '{' then (blockLen cs (d + 1)).map (· + 1) else _) = _
      rw [if_pos rfl]
      rw [ih (d + 1) (fun k hk1 hk2 => by
        have := h (k + 1) (by omega) (by simp; omega)
        rw [List.take_succ_cons, braceBalance_cons_open] at this
        intro hx
        exact this (by linarith))]
      rfl
    · by_cases hc2 : c = '}'
      · subst hc2
        show (if ('}' : Char) = '{' then _ else if ('}' : Char) = '}' then
            (if d - 1 = 0 then some 1 else (blockLen cs (d - 1)).map (· + 1))
          else _) = _
        rw [if_neg (by decide), if_pos rfl]
        have h1 := h 1 (by omega) (by simp)
        rw [List.take_succ_cons, List.take_zero, braceBalance_cons_close] at h1
        unfold braceBalance at h1
        simp at h1
        rw [if_neg (by omega)]
        rw [ih (d - 1) (fun k hk1 hk2 => by
          have := h (k + 1) (by omega) (by simp; omega)
          rw [List.take_succ_cons, braceBalance_cons_close] at this
          intro hx
          exact this (by linarith))]
        rfl
      · show (if c = '{' then _ else if c = '}' then _
          else (blockLen cs d).map (· + 1)) = _
        rw [if_neg hc, if_neg hc2]
        rw [ih d (fun k hk1 hk2 => by
          have := h (k + 1) (by omega) (by simp; omega)
          rw [List.take_succ_cons, braceBalance_cons_other hc hc2] at this
          intro hx
          exact this (by linarith))]
        rfl

/-- Balance of the empty prefix. -/
lemma braceBalance_nil : braceBalance [] = 0 := by
  unfold braceBalance
  simp

/-- Balance of a single character. -/
lemma braceBalance_singleton (c : Char) :
    braceBalance [c] = if c = '{' then 1 else if c = '}' then -1 else 0 := by
  by_cases h1 : c = '{'
  · subst h1
    rw [braceBalance_cons_open, braceBalance_nil]
    simp
  · by_cases h2 : c = '}'
    · subst h2
      rw [braceBalance_cons_close, braceBalance_nil]
      simp [h1]
    · rw [braceBalance_cons_other h1 h2, braceBalance_nil, if_neg h1, if_neg h2]

/-- Claim C8: starting at an opening brace of a well-formed region (depth
positive strictly inside, zero at position `n`), `_extract_block` returns
exactly the slice through position `n`, whose last character is the matching
closing brace, and the depth counter never goes negative during the scan. -/
theorem c8_extract_block_balanced (content : List Char) (start n : ℕ)
    (hpos : 1 ≤ n)
    (hhead : (content.drop start).head? = some '{')
    (hn : n ≤ (content.drop start).length)
    (hmid : ∀ k, 1 ≤ k → k < n → 1 ≤ braceBalance ((content.drop start).take k))
    (hend : braceBalance ((content.drop start).take n) = 0) :
    extract_block content start = (content.drop start).take n ∧
    (content.drop start).get? (n - 1) = some '}' ∧
    (∀ k, k ≤ n → 0 ≤ braceBalance ((content.drop start).take k)) := by
  obtain ⟨rest, hcs⟩ : ∃ rest, content.drop start = '{' :: rest := by
    cases h : content.drop start with
    | nil => rw [h] at hhead; simp at hhead
    | cons a rest =>
      rw [h] at hhead
      simp only [List.head?_cons, Option.some.injEq] at hhead
      exact ⟨rest, by rw [hhead]⟩
  rw [hcs] at hn hmid hend ⊢
  simp only [List.length_cons] at hn
  have hblock : blockLen ('{' :: rest) 0 = some n := by
    show (if ('{' : Char) = '{' then (blockLen rest (0 + 1)).map (· + 1) else _) = _
    rw [if_pos rfl]
    obtain ⟨j, rfl⟩ : ∃ j, n = j + 1 := ⟨n - 1, by omega⟩
    rw [blockLen_some_of_balanced rest (0 + 1) j (by omega) (by omega)
      (fun k hk => by
        have := hmid (k + 1) (by omega) (by omega)
        rw [List.take_succ_cons, braceBalance_cons_open] at this
        linarith)
      (by
        rw [List.take_succ_cons, braceBalance_cons_open] at hend
        linarith)]
    rfl
  refine ⟨?_, ?_, ?_⟩
  · unfold extract_block extractBlockL
    rw [hcs, hblock]
  · have hn2 : 2 ≤ n := by
      rcases Nat.lt_or_ge n 2 with h2 | h2
      · interval_cases n
        rw [List.take_succ_cons, List.take_zero, braceBalance_cons_open,
          braceBalance_nil] at hend
        omega
      · exact h2
    obtain ⟨j, rfl⟩ : ∃ j, n = j + 1 := ⟨n - 1, by omega⟩
    have hjlt : j < ('{' :: rest).length := by simp; omega
    obtain ⟨c, hget⟩ : ∃ c, ('{' :: rest)[j]? = some c :=
      ⟨_, List.getElem?_eq_getElem hjlt⟩
    rw [List.take_succ, hget] at hend
    simp only [Option.toList_some] at hend
    have happ : braceBalance (('{' :: rest).take j ++ [c])
        = braceBalance (('{' :: rest).take j) + braceBalance [c] := by
      unfold braceBalance
      rw [List.countP_append, List.countP_append]
      push_cast
      ring
    rw [happ] at hend
    have hbal_j := hmid j (by omega) (by omega)
    have hsingle := braceBalance_singleton c
    have hcc : c = '}' := by
      by_cases hb1 : c = '{'
      · rw [if_pos hb1] at hsingle
        linarith
      · by_cases hb2 : c = '}'
        · exact hb2
        · rw [if_neg hb1, if_neg hb2] at hsingle
          linarith
    simp only [Nat.add_sub_cancel]
    rw [List.get?_eq_getElem?, hget, hcc]
  · intro k hk
    rcases Nat.eq_zero_or_pos k with h0 | hkpos
    · subst h0
      simp only [List.take_zero, braceBalance_nil]
      omega
    · rcases Nat.lt_or_ge k n with hlt | hge
      · linarith [hmid k (by omega) hlt]
      · have : k = n := by omega
        subst this
        rw [hend]

/-- Witness for C8: the balanced buffer with an opening brace, one interior
character and the matching closing brace. -/
theorem c8_extract_block_balanced_witness :
    extract_block ['{', 'a', '}'] 0 = (List.drop 0 ['{', 'a', '}']).take 3 :=
  (c8_extract_block_balanced ['{', 'a', '}'] 0 3 (by norm_num) (by decide)
    (by decide)
    (by
      intro k h1 h2
      interval_cases k <;> decide)
    (by decide)).1

/-- Claim C2, counterexample: on the one-character buffer consisting of a
single opening brace (depth never returns to 0), `_extract_block` returns
the empty slice, not the slice through end-of-buffer. -/
theorem c2_counterexample :
    extract_block ['{'] 0 = [] ∧ extract_block ['{'] 0 ≠ ['{'] := by
  constructor <;> decide

/-- Claim C2 as amended: when the character at the start index is an opening
brace and the depth never returns to 0 before the end of the buffer, the
block extractor returns the empty slice (the source never reassigns `end`,
so it returns `content[start_brace:start_brace]`), without raising. -/
theorem c2_amended (content : List Char) (start : ℕ)
    (_hhead : (content.drop start).head? = some '{')
    (hunb : ∀ k, 1 ≤ k → k ≤ (content.drop start).length →
      braceBalance ((content.drop start).take k) ≠ 0) :
    extract_block content start = [] := by
  unfold extract_block extractBlockL
  rw [blockLen_none_of_unbalanced (content.drop start) 0
    (fun k h1 h2 => by simpa using hunb k h1 h2)]

/-- Witness for C2: a truncated buffer opening a brace never closed. -/
theorem c2_amended_witness : extract_block ['{', 'a', 'b'] 0 = [] :=
  c2_amended ['{', 'a', 'b'] 0 (by decide)
    (by
      intro k h1 h2
      simp only [List.drop_zero, List.length_cons, List.length_nil] at h2
      interval_cases k <;> decide)

/-- Claim C3, counterexample: bodies differing by one `else if`.  The body
with a bare `if` has complexity 2; appending one `else if` branch yields 4,
not 3, because the `if` inside `else if` is counted by both the bare-if
pattern and the else-if pattern. -/
theorem c3_counterexample :
    calc_cyclomatic ("\x7b if (x > 0) \x7b y(); \x7d \x7d".toList) = 2 ∧
    calc_cyclomatic
      ("\x7b if (x > 0) \x7b y(); \x7d else if (x < 2) \x7b z(); \x7d \x7d".toList) = 4 ∧
    (4 : ℕ) ≠ 2 + 1 := by
  refine ⟨?_, ?_, by decide⟩ <;> decide

/-- Claim C3 as amended: a body with zero decision-pattern matches has
cyclomatic complexity exactly 1; one added `if` raises it by exactly 1; one
further `else if` raises it by exactly 2 (matched by both the `if` and the
`else if` decision patterns). -/
theorem c3_amended :
    (∀ code : List Char,
      (∀ p ∈ cyclomaticPatterns, countMatches p code = 0) →
      calc_cyclomatic code = 1) ∧
    calc_cyclomatic ("\x7b if (x > 0) \x7b y(); \x7d \x7d".toList)
      = calc_cyclomatic ("\x7b x = 1; \x7d".toList) + 1 ∧
    calc_cyclomatic
        ("\x7b if (x > 0) \x7b y(); \x7d else if (x < 2) \x7b z(); \x7d \x7d".toList)
      = calc_cyclomatic ("\x7b if (x > 0) \x7b y(); \x7d \x7d".toList) + 2 := by
  refine ⟨?_, by decide, by decide⟩
  intro code h
  unfold calc_cyclomatic
  have : (cyclomaticPatterns.map (fun p => countMatches p code)).sum = 0 := by
    apply List.sum_eq_zero
    intro x hx
    obtain ⟨p, hp, rfl⟩ := List.mem_map.1 hx
    exact h p hp
  rw [this]

/-- Witness for C3 at a concrete decision-free body. -/
theorem c3_amended_witness : calc_cyclomatic ("\x7b x = 1; \x7d".toList) = 1 :=
  c3_amended.1 ("\x7b x = 1; \x7d".toList) (by decide)

/-- Claim C9: duplicate_lines is the sum of (count - 1) over distinct
meaningful line texts occurring at least twice; when there is at least one
meaningful line the duplicate percentage is that sum over the meaningful
line count times 100 (rounded to one decimal); and a file whose meaningful
lines are all unique yields duplicate_percentage = 0. -/
theorem c9_duplication (content : List Char) :
    duplicate_lines content
      = (((meaningful_lines content).dedup.filter
          (fun t => 2 ≤ (meaningful_lines content).count t)).map
          (fun t => (meaningful_lines content).count t - 1)).sum ∧
    (0 < (meaningful_lines content).length →
      duplicate_percentage content
        = round1 ((duplicate_lines content : ℚ)
            / ((meaningful_lines content).length : ℚ) * 100)) ∧
    ((∀ t ∈ meaningful_lines content, (meaningful_lines content).count t ≤ 1) →
      duplicate_percentage content = 0) := by
  refine ⟨rfl, ?_, ?_⟩
  · intro hpos
    unfold duplicate_percentage
    rw [Nat.max_eq_left hpos]
  · intro huniq
    have hnil : (meaningful_lines content).dedup.filter
        (fun t => 1 < (meaningful_lines content).count t) = [] := by
      rw [List.filter_eq_nil_iff]
      intro t ht
      have := huniq t (List.mem_dedup.1 ht)
      simp only [decide_eq_true_eq]
      omega
    have hzero : duplicate_lines content = 0 := by
      dsimp only [duplicate_lines]
      rw [hnil]
      rfl
    unfold duplicate_percentage
    rw [hzero]
    push_cast
    rw [zero_div, zero_mul]
    unfold round1
    rw [mul_zero, round_zero]
    norm_num

/-- Witness for C9: a single meaningful line, necessarily unique. -/
theorem c9_duplication_witness :
    duplicate_percentage ("int abcdefgh = 12345678;".toList) = 0 ∧
    duplicate_percentage ("int abcdefgh = 12345678;".toList)
      = round1 ((duplicate_lines ("int abcdefgh = 12345678;".toList) : ℚ)
          / ((meaningful_lines ("int abcdefgh = 12345678;".toList)).length : ℚ) * 100) := by
  have h := c9_duplication ("int abcdefgh = 12345678;".toList)
  exact ⟨h.2.2 (by decide), h.2.1 (by decide)⟩

/-- Claim C5, counterexample: a file declaring two brace-less private
methods extracts no method bodies, so the dead-code percentage is
2 / max(0, 1) * 100 = 200, outside [0, 100]. -/
theorem c5_counterexample :
    dead_code_percentage ("private int a();\nprivate int b();".toList) = 200 ∧
    ¬ dead_code_percentage ("private int a();\nprivate int b();".toList) ≤ 100 := by
  have h1 : (detect_dead_code ("private int a();\nprivate int b();".toList)).length
      = 2 := by decide
  have h2 : (methods ("private int a();\nprivate int b();".toList)).length = 0 := by
    decide
  have hval : dead_code_percentage ("private int a();\nprivate int b();".toList)
      = 200 := by
    unfold dead_code_percentage
    rw [h1, h2]
    norm_num [round1, round_eq]
  exact ⟨hval, by rw [hval]; norm_num⟩

/-- The two `BEq (List Char)` instances in scope (structural and
decidable-equality-derived) count identically. -/
lemma count_inst (t : List Char) (l : List (List Char)) :
    l.count t = @List.count (List Char) instBEqOfDecidableEq t l := by
  induction l with
  | nil => rfl
  | cons b l ih =>
    rw [List.count_cons, @List.count_cons (List Char) instBEqOfDecidableEq, ih]
    by_cases h : b = t <;> simp [h]

/-- The duplicate-line total never exceeds the number of meaningful lines:
summing (count - 1) over distinct recurring values stays below the list
length. -/
lemma dup_lines_le_length (l : List (List Char)) :
    ((l.dedup.filter (fun t => 1 < l.count t)).map (fun t => l.count t - 1)).sum
      ≤ l.length := by
  have h1 : ((l.dedup.filter (fun t => 1 < l.count t)).map
        (fun t => l.count t - 1)).sum
      ≤ ((l.dedup.filter (fun t => 1 < l.count t)).map (fun t => l.count t)).sum :=
    List.sum_le_sum (fun i _ => Nat.sub_le _ _)
  have h2 : ((l.dedup.filter (fun t => 1 < l.count t)).map (fun t => l.count t)).sum
      ≤ (l.dedup.map (fun t => l.count t)).sum :=
    List.Sublist.sum_le_sum ((List.filter_sublist _).map _) (fun a _ => Nat.zero_le a)
  have h3 : (l.dedup.map (fun t => l.count t)).sum = l.length := by
    have := List.sum_map_count_dedup_eq_length l
    calc (l.dedup.map (fun t => l.count t)).sum
        = (l.dedup.map (fun t => @List.count (List Char) instBEqOfDecidableEq t l)).sum := by
          exact congrArg List.sum (List.map_congr_left (fun t _ => count_inst t l))
      _ = l.length := this
  calc _ ≤ _ := h1
    _ ≤ _ := h2
    _ = l.length := h3

/-- Claim C5 as amended: comment_ratio, duplicate_percentage,
aaa_percentage and exception_handling_percentage always lie in [0, 100]
(each rounded to one decimal by construction); dead_code_percentage is
nonnegative but not bounded by 100 (see the counterexample). -/
theorem c5_amended (content : List Char) :
    (0 ≤ comment_ratio content ∧ comment_ratio content ≤ 100) ∧
    (0 ≤ duplicate_percentage content ∧ duplicate_percentage content ≤ 100) ∧
    (0 ≤ aaa_percentage (test_methods content) ∧
      aaa_percentage (test_methods content) ≤ 100) ∧
    (0 ≤ exception_handling_percentage (test_methods content) ∧
      exception_handling_percentage (test_methods content) ≤ 100) ∧
    0 ≤ dead_code_percentage content := by
  refine ⟨?_, ?_, ?_, ?_, ?_⟩
  · unfold comment_ratio
    by_cases h : 0 < total_lines content
    · rw [if_pos h]
      have hc : comment_lines content ≤ total_lines content :=
        List.countP_le_length _
      have ht : (0 : ℚ) < (total_lines content : ℚ) := by exact_mod_cast h
      have hraw1 : (0 : ℚ)
          ≤ (comment_lines content : ℚ) / (total_lines content : ℚ) * 100 :=
        mul_nonneg (div_nonneg (Nat.cast_nonneg _) (Nat.cast_nonneg _)) (by norm_num)
      have hraw2 : (comment_lines content : ℚ) / (total_lines content : ℚ) * 100
          ≤ 100 := by
        have hle : (comment_lines content : ℚ) / (total_lines content : ℚ) ≤ 1 :=
          (div_le_one ht).2 (by exact_mod_cast hc)
        nlinarith
      exact ⟨round1_nonneg hraw1, round1_le_100 hraw2⟩
    · rw [if_neg h]
      norm_num
  · have hle : duplicate_lines content ≤ (meaningful_lines content).length :=
      dup_lines_le_length (meaningful_lines content)
    have hb := pct_bounds hle
    exact ⟨round1_nonneg hb.1, round1_le_100 hb.2⟩
  · have hle : aaa_organized_count (test_methods content)
        ≤ (test_methods content).length := List.countP_le_length _
    have hb := pct_bounds hle
    exact ⟨round1_nonneg hb.1, round1_le_100 hb.2⟩
  · have hle : tests_with_exception_handling (test_methods content)
        ≤ (test_methods content).length := List.countP_le_length _
    have hb := pct_bounds hle
    exact ⟨round1_nonneg hb.1, round1_le_100 hb.2⟩
  · apply round1_nonneg
    have hm : (0 : ℚ) ≤ ((max (methods content).length 1 : ℕ) : ℚ) :=
      Nat.cast_nonneg _
    exact mul_nonneg (div_nonneg (Nat.cast_nonneg _) hm) (by norm_num)

/-- Claim C1 (code bug): on the empty input buffer the analysis does not
complete; the size analyzer yields logical_loc = 0 and the buffer has no
tokens, so the maintainability-index computation builds
halstead_volume = max(0,1) * log2(max(0,1)) = 1 * log2(1) = 0 and hands 0 to
`math.log`, which is outside its domain (the `ValueError` is modelled by
`none`).  Moreover total_lines is 1 on the empty buffer, not 0, so the
claimed all-zero report is wrong even before the crash. -/
theorem c1_mi_domain_error :
    maintainability_index [] = none ∧ total_lines [] = 1 := by
  constructor
  · have h1 : logical_loc [] = 0 := by decide
    have h3 : distinct_token_count [] = 0 := by decide
    simp only [maintainability_index, h1, h3]
    norm_num [mathLog, Real.logb_one]
  · rfl
